import Mathlib

/-!
Verification development for the moodle_backend reporting service.

The definitions below are shallow embeddings of the JavaScript source:

* `src/unnamed/part_002` — completion-range bucketer
  (`getEmptyRanges`, `getRangeKey`, `addToRange`, `processUsersInBatches`,
  `getSingleCourseCompletionBreakdown`);
* `src/unnamed/part_001` — class-wise video/pdf breakdown
  (`processInBatches`, `getSingleCourseBreakdown`);
* `src/services/activityBreakdownService.js` (second embedded module,
  `consistentAccessService`) — date-range resolver and consistency counter
  (`getDateRange` custom branch, `getConsistentAccessData`).

JavaScript numbers are modelled as `Nat`/`Int`, with the floating-point
percentage computations modelled as exact rational arithmetic (all values
involved are far below 2^53, so the float computations are exact or round
the same way the rational ones do for the comparisons performed).
JavaScript objects keyed by strings are modelled as association lists; the
`Object.values` enumeration order for integer-like keys (ascending numeric
key order, as JS specifies for objects) is modelled by sorting on the key.
JavaScript `Set`s are modelled as `Finset Nat`.
-/

namespace MoodleBackend

/-! ## Data shapes fetched from the upstream LMS client -/

/-- An enrolled user, as returned by `getEnrolledUsers`. -/
structure User where
  id : Nat
  fullname : String
  email : String
  username : String
deriving DecidableEq

/-- One entry of a per-student completion-status list
(`statuses[] → { cmid, instance, state }`).  The JS field `instance` is
called `instanceId` here because `instance` is reserved in Lean; a missing
(`undefined`) instance behaves exactly like `0` in the source (both are
falsy, and `undefined === n` is false for every number `n`), so it is
modelled as `0`. -/
structure Status where
  cmid : Nat
  instanceId : Nat
  state : Nat
deriving DecidableEq

/-! ## Completion bucketer (src/unnamed/part_002) -/

/-- A student entry pushed into a bucket by the second pass of
`getSingleCourseCompletionBreakdown` (`studentData` in the source). -/
structure Student where
  id : Nat
  name : String
  email : String
  username : String
  completedActivities : Nat
  totalActivities : Nat
  userVisibleActivities : Nat
  completionPercentage : Nat
  displayText : String
  error : Bool
deriving DecidableEq

/-- One completion-range bucket: `{ count, students, label }`. -/
structure Bucket where
  count : Nat
  students : List Student
  label : String
deriving DecidableEq

/-- The fixed list of bucket keys of the percentage policy, in the order in
which `getEmptyRanges` creates them. -/
def sixKeys : List String := ["0", "low", "mid", "high", "veryhigh", "full"]

/-- `getEmptyRanges()` — the ranges object with all six buckets empty.
A JS object with string keys is modelled as an association list. -/
def getEmptyRanges : List (String × Bucket) :=
  [ ("0", ⟨0, [], "0 activities completed"⟩),
    ("low", ⟨0, [], "1-25% completed"⟩),
    ("mid", ⟨0, [], "25-50% completed"⟩),
    ("high", ⟨0, [], "50-75% completed"⟩),
    ("veryhigh", ⟨0, [], "75-99% completed"⟩),
    ("full", ⟨0, [], "All activities completed"⟩) ]

/-- The `percentComplete` value computed inside `getRangeKey`:
`courseTotal > 0 ? (completedCount / courseTotal) * 100 : 0`. -/
def percentComplete (completedCount courseTotal : Nat) : ℚ :=
  if 0 < courseTotal then ((completedCount : ℚ) / courseTotal) * 100 else 0

/-- `getRangeKey(completedCount, courseTotal)` from the source:
`0` when nothing is completed, `full` when `completedCount >= courseTotal`
with a positive course total, otherwise bucketed by `percentComplete`. -/
def getRangeKey (completedCount courseTotal : Nat) : String :=
  if completedCount = 0 then "0"
  else if courseTotal ≤ completedCount ∧ 0 < courseTotal then "full"
  else if percentComplete completedCount courseTotal < 25 then "low"
  else if percentComplete completedCount courseTotal < 50 then "mid"
  else if percentComplete completedCount courseTotal < 75 then "high"
  else "veryhigh"

/-- Integer-arithmetic form of `getRangeKey`, used to evaluate the function
on concrete inputs and to state the bucketing conditions without rational
division.  `rangeKeyNat_eq` proves it pointwise equal to `getRangeKey`. -/
def rangeKeyNat (completedCount courseTotal : Nat) : String :=
  if completedCount = 0 then "0"
  else if courseTotal ≤ completedCount ∧ 0 < courseTotal then "full"
  else if courseTotal = 0 ∨ completedCount * 100 < 25 * courseTotal then "low"
  else if completedCount * 100 < 50 * courseTotal then "mid"
  else if completedCount * 100 < 75 * courseTotal then "high"
  else "veryhigh"

/-- `percentComplete` compared against a constant is an integer comparison
(for a positive course total). -/
theorem percentComplete_lt_iff (c t k : Nat) (ht : 0 < t) :
    percentComplete c t < (k : ℚ) ↔ c * 100 < k * t := by
  have ht2 : (0 : ℚ) < (t : ℚ) := by exact_mod_cast ht
  rw [percentComplete, if_pos ht, div_mul_eq_mul_div, div_lt_iff₀ ht2]
  exact_mod_cast Iff.rfl

/-- The rational comparisons in `getRangeKey` reduce to integer
comparisons. -/
theorem rangeKeyNat_eq (c t : Nat) : getRangeKey c t = rangeKeyNat c t := by
  unfold getRangeKey rangeKeyNat
  rcases Nat.eq_zero_or_pos t with ht | ht
  · subst ht
    by_cases hc : c = 0 <;>
      simp [hc, percentComplete, show ¬ (0 < 0) from by omega]
  · have h25 := percentComplete_lt_iff c t 25 ht
    have h50 := percentComplete_lt_iff c t 50 ht
    have h75 := percentComplete_lt_iff c t 75 ht
    norm_num at h25 h50 h75
    simp only [h25, h50, h75, show ¬ t = 0 from by omega, false_or]

/-- `addToRange(ranges, completedCount, courseTotal, student)`:
push the student onto the bucket chosen by `getRangeKey` and increment
that bucket's count. -/
def addToRange (ranges : List (String × Bucket)) (completedCount courseTotal : Nat)
    (student : Student) : List (String × Bucket) :=
  let key := getRangeKey completedCount courseTotal
  ranges.map fun p =>
    if p.1 = key then
      (p.1, ⟨p.2.count + 1, p.2.students ++ [student], p.2.label⟩)
    else p

/-! ## Batch scheduler (`processInBatches` in src/unnamed/part_001,
`processUsersInBatches` in src/unnamed/part_002 — the two bodies are
identical).  The loop `for (i = 0; i < items.length; i += batchSize)` is
modelled with a structural-recursion counter bounded by the list length:
for `batchSize > 0` (the only case the source ever runs — it is called
with the constant 20; with `batchSize = 0` the JS loop would not
terminate) each iteration consumes at least one item, so `items.length`
iterations always suffice. -/

/-- The successive `items.slice(i, i + batchSize)` values of the loop. -/
def batchesAux (batchSize : Nat) : Nat → List α → List (List α)
  | 0, _ => []
  | _, [] => []
  | fuel + 1, l => l.take batchSize :: batchesAux batchSize fuel (l.drop batchSize)

/-- The list of batches dispatched for a given item list. -/
def batches (batchSize : Nat) (items : List α) : List (List α) :=
  batchesAux batchSize items.length items

/-- Number of inter-batch pauses: the loop sleeps only when
`i + batchSize < items.length`, i.e. when items remain after the current
batch. -/
def pauseCountAux (batchSize : Nat) : Nat → List α → Nat
  | 0, _ => 0
  | _, [] => 0
  | fuel + 1, l =>
      (if (l.drop batchSize).isEmpty then 0 else 1) + pauseCountAux batchSize fuel (l.drop batchSize)

/-- Number of inter-batch pauses executed for a given item list. -/
def pauseCount (batchSize : Nat) (items : List α) : Nat :=
  pauseCountAux batchSize items.length items

/-- `processInBatches(items, batchSize, processFn)`: the returned `results`
array — each batch contributes `Promise.all(batch.map(processFn))`, which
preserves the batch's order, and batches are appended in order.  The
per-item operation is total (`α → β`): a failing item is represented by
`processFn` returning its fallback value. -/
def processInBatches (batchSize : Nat) (items : List α) (processFn : α → β) : List β :=
  ((batches batchSize items).map (fun b => b.map processFn)).flatten

/-! ## `getSingleCourseCompletionBreakdown` (src/unnamed/part_002)

The per-user fetch `moodleService.getActivitiesCompletion` is modelled as
a total function `fetch : User → Option (List Status)`: `some statuses`
for a successful response (`completion.statuses || []` already applied)
and `none` for a rejected fetch, which the source recovers from by pushing
a zero-progress entry with `error: true`.

The entries are pushed onto `userCompletionData` from inside the async
`processFn`, so within one batch they appear in the order in which the
per-student fetches *settle*, which `Promise.all` leaves unspecified;
across batches the order follows the batch order.  The settlement order is
therefore an explicit parameter `order` of the embedding, constrained by
`BatchwisePerm` to be a per-batch permutation of the enrolled-user list. -/

/-- One element of the source's `userCompletionData` array. -/
structure UserCompletionEntry where
  user : User
  completedCount : Nat
  userVisibleActivities : Nat
  error : Bool
deriving DecidableEq

/-- The `userCompletionData` entry produced for one user by the first
pass: on success, count the statuses with state 1 or 2; on a failed fetch,
fall back to zero progress with the error flag set. -/
def fetchEntry (fetch : User → Option (List Status)) (u : User) : UserCompletionEntry :=
  match fetch u with
  | some statuses =>
      { user := u,
        completedCount := (statuses.filter fun s => s.state == 1 || s.state == 2).length,
        userVisibleActivities := statuses.length,
        error := false }
  | none =>
      { user := u, completedCount := 0, userVisibleActivities := 0, error := true }

/-- `order` is a possible settlement order of the per-user fetches: batch
by batch (batches taken in dispatch order), the entries of each batch in
some arbitrary order. -/
def BatchwisePerm (batchSize : Nat) (users order : List User) : Prop :=
  ∃ obs : List (List User),
    order = obs.flatten ∧ List.Forall₂ (fun x y => x.Perm y) obs (batches batchSize users)

/-- The running `Math.max` over `userVisibleActivities`.  In the source
the error path does not update the maximum, but its entry carries
`userVisibleActivities: 0`, so folding over all entries is the same. -/
def totalActivities (data : List UserCompletionEntry) : Nat :=
  data.foldl (fun acc e => Nat.max acc e.userVisibleActivities) 0

/-- `Math.round((completedCount / total) * 100)` for `total > 0`, computed
exactly: `Math.round x = ⌊x + 1/2⌋` and
`⌊c*100/t + 1/2⌋ = (200*c + t) / (2*t)` on naturals. -/
def roundPct (c t : Nat) : Nat := (200 * c + t) / (2 * t)

/-- The `studentData` object built in the second pass. -/
def mkStudentData (total : Nat) (e : UserCompletionEntry) : Student :=
  { id := e.user.id,
    name := e.user.fullname,
    email := e.user.email,
    username := e.user.username,
    completedActivities := e.completedCount,
    totalActivities := total,
    userVisibleActivities := e.userVisibleActivities,
    completionPercentage := if 0 < total then roundPct e.completedCount total else 0,
    displayText := toString e.completedCount ++ "/" ++ toString total ++ " activities",
    error := e.error }

/-- The second pass: fold every entry into the ranges with `addToRange`. -/
def foldRanges (total : Nat) (data : List UserCompletionEntry)
    (r : List (String × Bucket)) : List (String × Bucket) :=
  data.foldl (fun r e => addToRange r e.completedCount total (mkStudentData total e)) r

/-- Students within each bucket are greater-or-equal on
`completedActivities` going left to right: the comparator
`(a, b) => b.completedActivities - a.completedActivities`. -/
def sGE (a b : Student) : Prop := b.completedActivities ≤ a.completedActivities

instance : DecidableRel sGE := fun a b => Nat.decLe b.completedActivities a.completedActivities

instance : IsTotal Student sGE := ⟨fun a b => le_total b.completedActivities a.completedActivities⟩

instance : IsTrans Student sGE := ⟨fun _ _ _ h1 h2 => le_trans h2 h1⟩

/-- The final sorting pass: each bucket's students are sorted by
descending completion count (`Array.prototype.sort` is stable, modelled by
a stable insertion sort). -/
def sortRanges (r : List (String × Bucket)) : List (String × Bucket) :=
  r.map fun p => (p.1, ⟨p.2.count, List.insertionSort sGE p.2.students, p.2.label⟩)

/-- The result record of `getSingleCourseCompletionBreakdown` (fields
not involved in the claims — courseId, courseName — are omitted). -/
structure BreakdownResult where
  totalEnrolled : Nat
  totalActivitiesWithCompletion : Nat
  completionRanges : List (String × Bucket)
deriving DecidableEq

/-- `getSingleCourseCompletionBreakdown`: early return with empty ranges
when nobody is enrolled; otherwise collect per-user completion data (in
settlement order `order`), take the maximum visible-activity count as the
course total, bucket every entry, and sort each bucket. -/
def getSingleCourseCompletionBreakdown (users : List User)
    (fetch : User → Option (List Status)) (order : List User) : BreakdownResult :=
  if users.isEmpty then
    { totalEnrolled := 0, totalActivitiesWithCompletion := 0, completionRanges := getEmptyRanges }
  else
    let data := order.map (fetchEntry fetch)
    let total := totalActivities data
    { totalEnrolled := users.length,
      totalActivitiesWithCompletion := total,
      completionRanges := sortRanges (foldRanges total data getEmptyRanges) }

/-- The student list at a key of a ranges object (`ranges[key].students`,
empty when the key is absent). -/
def sfind : List (String × Bucket) → String → List Student
  | [], _ => []
  | p :: r, key => if p.1 = key then p.2.students else sfind r key

/-- Look up a bucket's student list (empty when the key is absent). -/
def bucketStudents (res : BreakdownResult) (key : String) : List Student :=
  sfind res.completionRanges key

/-- Sum of the `count` fields over all buckets. -/
def sumCounts (ranges : List (String × Bucket)) : Nat :=
  (ranges.map fun p => p.2.count).sum

/-! ## Class-wise video/pdf breakdown (src/unnamed/part_001)

`moduleMap` is a JS object keyed by the numeric `mod.id` (cmid); it is
modelled as an association list `List (Nat × ModInfo)`.  `Object.values`
enumerates integer-like keys in ascending numeric order, modelled by
`jsValues`.  The per-class learner sets (`classData[label].video/pdf`,
JS `Set`s of student ids) are modelled as `Finset Nat`. -/

/-- One value of the `moduleMap` object. -/
structure ModInfo where
  classLabel : String
  type : String
  moduleName : String
  moduleId : Nat
  instanceId : Nat
  modname : String
deriving DecidableEq

/-- The `classData` object: per class label, the video learner set and the
pdf learner set. -/
abbrev ClassData := List (String × (Finset Nat × Finset Nat))

/-- `ensureClass(label)`: create the `{video: new Set(), pdf: new Set()}`
entry when the label has none yet. -/
def ensureClass (cd : ClassData) (label : String) : ClassData :=
  if label ∈ cd.map (fun p => p.1) then cd else cd ++ [(label, (∅, ∅))]

/-- The video learner set of a class (empty when the label is absent). -/
def videoIds : ClassData → String → Finset Nat
  | [], _ => ∅
  | p :: cd, label => if p.1 = label then p.2.1 else videoIds cd label

/-- The pdf learner set of a class (empty when the label is absent). -/
def pdfIds : ClassData → String → Finset Nat
  | [], _ => ∅
  | p :: cd, label => if p.1 = label then p.2.2 else pdfIds cd label

/-- `classData[label].video.add(studentId)`. -/
def addVideo (cd : ClassData) (label : String) (sid : Nat) : ClassData :=
  cd.map fun p => if p.1 = label then (p.1, (insert sid p.2.1, p.2.2)) else p

/-- `classData[label].pdf.add(studentId)`. -/
def addPdf (cd : ClassData) (label : String) (sid : Nat) : ClassData :=
  cd.map fun p => if p.1 = label then (p.1, (p.2.1, insert sid p.2.2)) else p

/-- `moduleMap[status.cmid]`: object lookup by numeric key. -/
def findCmid (moduleMap : List (Nat × ModInfo)) (cmid : Nat) : Option ModInfo :=
  (moduleMap.find? fun p => p.1 == cmid).map fun p => p.2

/-- `Object.values(moduleMap)`: values in ascending numeric key order. -/
def jsValues (moduleMap : List (Nat × ModInfo)) : List ModInfo :=
  (List.insertionSort (fun p q : Nat × ModInfo => p.1 ≤ q.1) moduleMap).map fun p => p.2

instance : DecidableRel (fun p q : Nat × ModInfo => p.1 ≤ q.1) :=
  fun p q => Nat.decLe p.1 q.1

/-- Processing of one completion-status event for one student inside
`getSingleCourseBreakdown`: skip non-complete states; look the event up by
`cmid`; if that fails and `status.instance` is truthy, fall back to the
first classified activity (in `Object.values` order) with the same
instance; attribute a match to its class's video or pdf set; silently skip
events that match nothing. -/
def processStatus (moduleMap : List (Nat × ModInfo)) (cd : ClassData)
    (sid : Nat) (status : Status) : ClassData :=
  if status.state ≠ 1 ∧ status.state ≠ 2 then cd
  else
    let direct := findCmid moduleMap status.cmid
    let modInfo :=
      match direct with
      | some m => some m
      | none =>
          if status.instanceId ≠ 0 then
            (jsValues moduleMap).find? fun m => m.instanceId == status.instanceId
          else none
    match modInfo with
    | none => cd
    | some m =>
        let cd2 := ensureClass cd m.classLabel
        if m.type == "video" then addVideo cd2 m.classLabel sid
        else if m.type == "pdf" then addPdf cd2 m.classLabel sid
        else cd2

/-- One element of the `classSummary` array. -/
structure ClassSummaryEntry where
  className : String
  videoCompleted : Nat
  pdfCompleted : Nat
  bothCompleted : Nat
  eitherCompleted : Nat
  totalEnrolled : Nat
deriving DecidableEq

/-- The summary row built for one class label:
`bothCount = [...video].filter(id => pdf.has(id)).length` and
`eitherCount = new Set([...video, ...pdf]).size`. -/
def classSummaryFor (cd : ClassData) (label : String) (totalEnrolled : Nat) :
    ClassSummaryEntry :=
  let v := videoIds cd label
  let p := pdfIds cd label
  { className := label,
    videoCompleted := v.card,
    pdfCompleted := p.card,
    bothCompleted := (v.filter fun id => id ∈ p).card,
    eitherCompleted := (v ∪ p).card,
    totalEnrolled := totalEnrolled }

/-! ## Date range resolver and consistency counter
(consistentAccessService, the second module embedded in
src/services/activityBreakdownService.js) -/

/-- The outcome of handing one of the two date strings of the `custom`
range to `new Date(...)`: the string can be missing (undefined), present
but unparsable (`isNaN(date)`), or parse to a calendar day. -/
inductive DateInput where
  | missing : DateInput
  | unparsable : DateInput
  | parsed (y m d : Int) : DateInput
deriving DecidableEq

/-- Days between a proleptic Gregorian calendar date and 1970-01-01
(Howard Hinnant's civil-days algorithm; `/` on `Int` is floor division,
which agrees with the algorithm for every parsable year `y ≥ 0`).
This models the epoch value of `new Date("YYYY-MM-DDT00:00:00Z")`. -/
def daysFromCivil (y m d : Int) : Int :=
  let yy := if m ≤ 2 then y - 1 else y
  let era := (if 0 ≤ yy then yy else yy - 399) / 400
  let yoe := yy - era * 400
  let mp := (m + 9) % 12
  let doy := (153 * mp + 2) / 5 + d - 1
  let doe := yoe * 365 + yoe / 4 - yoe / 100 + doy
  era * 146097 + doe - 719468

/-- The `custom` branch of `getDateRange(dateRange, fromDateStr,
toDateStr)`: reject a missing string, then reject an unparsable one, then
return `[00:00:00Z of the start date, 23:59:59Z of the end date]` in epoch
seconds.  The source performs no comparison between the two dates. -/
def getDateRangeCustom (fromDateStr toDateStr : DateInput) : Except String (Int × Int) :=
  if fromDateStr = .missing ∨ toDateStr = .missing then
    .error "Custom range requires startDate and endDate"
  else
    match fromDateStr, toDateStr with
    | .parsed y1 m1 d1, .parsed y2 m2 d2 =>
        .ok (86400 * daysFromCivil y1 m1 d1, 86400 * daysFromCivil y2 m2 d2 + 86399)
    | _, _ => .error "Invalid date format. Use YYYY-MM-DD"

/-- `Math.ceil((range.to - range.from) / (24 * 60 * 60))`, the `daysInRange`
of `getConsistentAccessData`, computed exactly on rationals. -/
def daysInRange (f t : Int) : Int := ⌈((t : ℚ) - f) / (24 * 60 * 60)⌉

/-- A roster entry as assembled by the user-collection phase: the user's
id, last-access epoch and the number of course memberships collected for
them (`user.courses.length`). -/
structure RosterUser where
  id : Nat
  lastaccess : Int
  courseCount : Nat
deriving DecidableEq

/-- A value of the `userLoginDays` object. -/
structure LoginDaysEntry where
  userId : Nat
  uniqueDays : Int
  totalLogins : Nat
deriving DecidableEq

/-- An element of the final `consistentUsers` array (fields not involved
in the claims are omitted). -/
structure ConsistentUser where
  userId : Nat
  uniqueDays : Int
  totalLogins : Nat
  consistency : Int
deriving DecidableEq

/-- `Math.round(x) = ⌊x + 1/2⌋` on an exact rational. -/
def jsRound (x : ℚ) : Int := ⌊x + 1 / 2⌋

/-- `obj[k] = v` on a JS object with numeric keys: overwrite an existing
entry, otherwise add one. -/
def upsert (m : List (Nat × α)) (k : Nat) (v : α) : List (Nat × α) :=
  if k ∈ m.map (fun p => p.1) then
    m.map fun p => if p.1 = k then (k, v) else p
  else m ++ [(k, v)]

/-- `Object.values` of an object with numeric keys: ascending key order. -/
def objValues (m : List (Nat × α)) : List α :=
  (List.insertionSort (fun p q : Nat × α => p.1 ≤ q.1) m).map fun p => p.2

instance : DecidableRel (fun p q : Nat × α => p.1 ≤ q.1) :=
  fun p q => Nat.decLe p.1 q.1

/-- Sort comparator of the `consistentUsers` array:
`(a, b) => b.consistency - a.consistency`. -/
def cGE (a b : ConsistentUser) : Prop := b.consistency ≤ a.consistency

instance : DecidableRel cGE := fun a b => Int.decLe b.consistency a.consistency

instance : IsTotal ConsistentUser cGE := ⟨fun a b => le_total b.consistency a.consistency⟩

instance : IsTrans ConsistentUser cGE := ⟨fun _ _ _ h1 h2 => le_trans h2 h1⟩

/-- The output of `getConsistentAccessData` (restricted to the fields the
claims are about: `dateRange.totalDays` and the `users` array). -/
structure ConsistencyReport where
  totalDays : Int
  users : List ConsistentUser
deriving DecidableEq

/-- `getConsistentAccessData`, from the resolved range on: compute
`daysInRange`, keep the users whose `lastaccess` lies within the range,
build `userLoginDays` keyed by user id with
`uniqueDays = Math.min(user.courses.length, daysInRange)`, map to
consistency records with
`consistency = Math.round(uniqueDays / daysInRange * 100)` and sort by
descending consistency. -/
def getConsistentAccessData (f t : Int) (roster : List RosterUser) : ConsistencyReport :=
  let d := daysInRange f t
  let active := roster.filter fun u => f ≤ u.lastaccess && u.lastaccess ≤ t
  let userLoginDays : List (Nat × LoginDaysEntry) :=
    active.foldl
      (fun m u =>
        upsert m u.id
          { userId := u.id, uniqueDays := min (u.courseCount : Int) d,
            totalLogins := u.courseCount })
      []
  let consistentUsers :=
    (objValues userLoginDays).map fun e =>
      { userId := e.userId, uniqueDays := e.uniqueDays, totalLogins := e.totalLogins,
        consistency := jsRound ((e.uniqueDays : ℚ) / (d : ℚ) * 100) : ConsistentUser }
  { totalDays := d, users := List.insertionSort cGE consistentUsers }

/-! ## Lemmas about the batch scheduler -/

theorem batchesAux_nil (b fuel : Nat) : batchesAux b fuel ([] : List α) = [] := by
  cases fuel <;> rfl

theorem pauseCountAux_nil (b fuel : Nat) : pauseCountAux b fuel ([] : List α) = 0 := by
  cases fuel <;> rfl

theorem batchesAux_flatten (b : Nat) (hb : 0 < b) :
    ∀ (fuel : Nat) (l : List α), l.length ≤ fuel → (batchesAux b fuel l).flatten = l := by
  intro fuel
  induction fuel with
  | zero =>
      intro l hl
      have : l = [] := List.length_eq_zero.mp (by omega)
      subst this
      rfl
  | succ fuel ih =>
      intro l hl
      cases l with
      | nil => rfl
      | cons x xs =>
          show (List.take b (x :: xs) :: batchesAux b fuel (List.drop b (x :: xs))).flatten
              = x :: xs
          rw [List.flatten_cons, ih (List.drop b (x :: xs))
            (by simp only [List.length_drop, List.length_cons] at hl ⊢; omega),
            List.take_append_drop]

theorem batchesAux_length (b : Nat) (hb : 0 < b) :
    ∀ (fuel : Nat) (l : List α), l.length ≤ fuel →
      (batchesAux b fuel l).length = (l.length + b - 1) / b := by
  intro fuel
  induction fuel with
  | zero =>
      intro l hl
      have : l = [] := List.length_eq_zero.mp (by omega)
      subst this
      simp [batchesAux, Nat.div_eq_of_lt (show b - 1 < b by omega)]
  | succ fuel ih =>
      intro l hl
      cases l with
      | nil => simp [batchesAux_nil, Nat.div_eq_of_lt (show b - 1 < b by omega)]
      | cons x xs =>
          show (List.take b (x :: xs) :: batchesAux b fuel (List.drop b (x :: xs))).length
              = ((x :: xs).length + b - 1) / b
          rw [List.length_cons, ih (List.drop b (x :: xs))
            (by simp only [List.length_drop, List.length_cons] at hl ⊢; omega)]
          rw [List.length_drop]
          have hx1 : 1 ≤ (x :: xs).length := by simp
          rcases le_or_lt (x :: xs).length b with h | h
          · have h1 : (x :: xs).length - b = 0 := by omega
            have h4 : ((x :: xs).length + b - 1) / b = 1 :=
              Nat.div_eq_of_lt_le (by omega) (by omega)
            rw [h1, h4]
            simp only [Nat.zero_add]
            rw [Nat.div_eq_of_lt (show b - 1 < b by omega)]
          · have h1 : (x :: xs).length - b + b - 1 = (x :: xs).length - 1 := by omega
            have h2 : (x :: xs).length + b - 1 = ((x :: xs).length - 1) + b := by omega
            rw [h1, h2, Nat.add_div_right _ hb]

theorem batchesAux_batch_le (b : Nat) :
    ∀ (fuel : Nat) (l : List α), ∀ c ∈ batchesAux b fuel l, c.length ≤ b := by
  intro fuel
  induction fuel with
  | zero => intro l c hc; simp [batchesAux] at hc
  | succ fuel ih =>
      intro l c hc
      cases l with
      | nil => simp [batchesAux_nil] at hc
      | cons x xs =>
          rcases List.mem_cons.mp hc with hc | hc
          · subst hc; simp [List.length_take]
          · exact ih _ _ hc

theorem batchesAux_pos (b : Nat) :
    ∀ (fuel : Nat) (l : List α), l ≠ [] → 1 ≤ l.length → l.length ≤ fuel →
      1 ≤ (batchesAux b fuel l).length := by
  intro fuel l hne h1 hle
  cases fuel with
  | zero => omega
  | succ fuel =>
      cases l with
      | nil => exact absurd rfl hne
      | cons x xs => simp [batchesAux]

theorem pauseCountAux_eq (b : Nat) (hb : 0 < b) :
    ∀ (fuel : Nat) (l : List α), l.length ≤ fuel →
      pauseCountAux b fuel l = (batchesAux b fuel l).length - 1 := by
  intro fuel
  induction fuel with
  | zero =>
      intro l hl
      have : l = [] := List.length_eq_zero.mp (by omega)
      subst this
      rfl
  | succ fuel ih =>
      intro l hl
      cases l with
      | nil => rfl
      | cons x xs =>
          show (if (List.drop b (x :: xs)).isEmpty then 0 else 1)
                + pauseCountAux b fuel (List.drop b (x :: xs))
              = (List.take b (x :: xs) :: batchesAux b fuel (List.drop b (x :: xs))).length - 1
          have hdl : (List.drop b (x :: xs)).length ≤ fuel := by
            simp only [List.length_drop, List.length_cons] at hl ⊢; omega
          rw [ih _ hdl, List.length_cons]
          rcases em (List.drop b (x :: xs) = []) with hd | hd
          · rw [hd]
            simp [batchesAux_nil]
          · have hpos : 1 ≤ (batchesAux b fuel (List.drop b (x :: xs))).length :=
              batchesAux_pos b fuel _ hd (by cases h : List.drop b (x :: xs) with
                | nil => exact absurd h hd
                | cons y ys => simp [h]) hdl
            have : (List.drop b (x :: xs)).isEmpty = false := by
              cases h : List.drop b (x :: xs) with
              | nil => exact absurd h hd
              | cons y ys => rfl
            rw [this]
            simp only [Bool.false_eq_true, if_false]
            omega

theorem processInBatches_eq_map (b : Nat) (hb : 0 < b) (items : List α) (f : α → β) :
    processInBatches b items f = items.map f := by
  unfold processInBatches batches
  rw [← List.map_flatten, batchesAux_flatten b hb items.length items le_rfl]

/-- C3, part of the claim bundle: the batches partition the input. -/
theorem batches_flatten (b : Nat) (hb : 0 < b) (items : List α) :
    (batches b items).flatten = items :=
  batchesAux_flatten b hb items.length items le_rfl

/-! ## Claim C3 — batch scheduler -/

/-- C3: for every ordered item list, batch size `b > 0` and total per-item
operation, the scheduler dispatches exactly `⌈N/b⌉ = (N + b - 1) / b`
batches, each of at most `b` items; it pauses once after every batch
except the last (`pauseCount = #batches - 1`, so `0` pauses for `0` or `1`
batches and never a pause before the first batch); and it returns exactly
one result per input item, in input order (`results = items.map f`). -/
theorem C3_batch_scheduler (items : List α) (f : α → β) (b : Nat) (hb : 0 < b) :
    (batches b items).length = (items.length + b - 1) / b ∧
    (∀ c ∈ batches b items, c.length ≤ b) ∧
    pauseCount b items = (batches b items).length - 1 ∧
    processInBatches b items f = items.map f :=
  ⟨batchesAux_length b hb items.length items le_rfl,
   fun c hc => batchesAux_batch_le b items.length items c hc,
   pauseCountAux_eq b hb items.length items le_rfl,
   processInBatches_eq_map b hb items f⟩

/-- C3 witness: 45 items with batch size 20 give 3 batches, 2 pauses and
45 in-order results. -/
theorem C3_batch_scheduler_witness :
    (batches 20 (List.range 45)).length = 3 ∧
    pauseCount 20 (List.range 45) = 2 ∧
    processInBatches 20 (List.range 45) (fun n => n + 1) = (List.range 45).map (fun n => n + 1) :=
  have h := C3_batch_scheduler (List.range 45) (fun n => n + 1) 20 (by decide)
  ⟨h.1.trans (by decide), (h.2.2.1.trans (by rw [h.1])).trans (by decide), h.2.2.2⟩

/-! ## Claim C1 — the percentage-policy bucketer -/

theorem percentComplete_zero (c : Nat) : percentComplete c 0 = 0 := by
  simp [percentComplete]

/-- C1: `getRangeKey` returns exactly one of the six keys, characterized
as the claim states it: `"0"` iff nothing is completed; `"full"` iff
`completedCount ≥ courseTotal > 0`; otherwise by
`percent = completedCount/courseTotal*100` (with `percent = 0` when
`courseTotal = 0`): `"low"` below 25, `"mid"` below 50, `"high"` below
75, else `"veryhigh"`; together with the claim's concrete examples,
including `completedCount > 0` with `courseTotal = 0` landing in
`"low"`. -/
theorem C1_getRangeKey_characterization (c t : Nat) :
    getRangeKey c t ∈ sixKeys ∧
    (getRangeKey c t = "0" ↔ c = 0) ∧
    (getRangeKey c t = "full" ↔ t ≤ c ∧ 0 < t) ∧
    (getRangeKey c t = "low" ↔
      c ≠ 0 ∧ ¬(t ≤ c ∧ 0 < t) ∧ percentComplete c t < 25) ∧
    (getRangeKey c t = "mid" ↔
      c ≠ 0 ∧ ¬(t ≤ c ∧ 0 < t) ∧ 25 ≤ percentComplete c t ∧ percentComplete c t < 50) ∧
    (getRangeKey c t = "high" ↔
      c ≠ 0 ∧ ¬(t ≤ c ∧ 0 < t) ∧ 50 ≤ percentComplete c t ∧ percentComplete c t < 75) ∧
    (getRangeKey c t = "veryhigh" ↔
      c ≠ 0 ∧ ¬(t ≤ c ∧ 0 < t) ∧ 75 ≤ percentComplete c t) ∧
    getRangeKey 0 10 = "0" ∧ getRangeKey 10 10 = "full" ∧
    getRangeKey 2 10 = "low" ∧ getRangeKey 0 0 = "0" ∧ getRangeKey 7 0 = "low" := by
  have hexs : getRangeKey 0 10 = "0" ∧ getRangeKey 10 10 = "full" ∧
      getRangeKey 2 10 = "low" ∧ getRangeKey 0 0 = "0" ∧ getRangeKey 7 0 = "low" := by
    refine ⟨?_, ?_, ?_, ?_, ?_⟩ <;> rw [rangeKeyNat_eq] <;> decide
  have hmem : getRangeKey c t ∈ sixKeys := by
    rw [rangeKeyNat_eq]
    unfold rangeKeyNat
    split_ifs <;> simp [sixKeys]
  rcases Nat.eq_zero_or_pos t with ht | ht
  · subst ht
    refine ⟨hmem, ?_, ?_, ?_, ?_, ?_, ?_, hexs⟩ <;>
      rw [rangeKeyNat_eq] <;> unfold rangeKeyNat <;>
      split_ifs with h1 h2 h3 h4 h5 <;>
      simp_all [percentComplete_zero] <;> omega
  · have hlt25 : percentComplete c t < 25 ↔ c * 100 < 25 * t := by
      have := percentComplete_lt_iff c t 25 ht
      norm_num at this
      exact this
    have hlt50 : percentComplete c t < 50 ↔ c * 100 < 50 * t := by
      have := percentComplete_lt_iff c t 50 ht
      norm_num at this
      exact this
    have hlt75 : percentComplete c t < 75 ↔ c * 100 < 75 * t := by
      have := percentComplete_lt_iff c t 75 ht
      norm_num at this
      exact this
    have hle25 : 25 ≤ percentComplete c t ↔ 25 * t ≤ c * 100 := by
      rw [← not_lt, hlt25, not_lt]
    have hle50 : 50 ≤ percentComplete c t ↔ 50 * t ≤ c * 100 := by
      rw [← not_lt, hlt50, not_lt]
    have hle75 : 75 ≤ percentComplete c t ↔ 75 * t ≤ c * 100 := by
      rw [← not_lt, hlt75, not_lt]
    refine ⟨hmem, ?_, ?_, ?_, ?_, ?_, ?_, hexs⟩ <;>
      (try simp only [hlt25, hlt50, hlt75, hle25, hle50, hle75]) <;>
      rw [rangeKeyNat_eq] <;> unfold rangeKeyNat <;>
      split_ifs with h1 h2 h3 h4 h5 <;>
      (try simp_all) <;> omega

/-! ## Lemmas about the ranges object -/

theorem getRangeKey_mem_sixKeys (c t : Nat) : getRangeKey c t ∈ sixKeys := by
  rw [rangeKeyNat_eq]
  unfold rangeKeyNat
  split_ifs <;> simp [sixKeys]

theorem addToRange_nil (c t : Nat) (s : Student) : addToRange [] c t s = [] := rfl

theorem addToRange_cons (p : String × Bucket) (r : List (String × Bucket))
    (c t : Nat) (s : Student) :
    addToRange (p :: r) c t s =
      (if p.1 = getRangeKey c t then
        (p.1, ⟨p.2.count + 1, p.2.students ++ [s], p.2.label⟩)
      else p) :: addToRange r c t s := rfl

/-- `addToRange` never changes the key list of the ranges object. -/
theorem keys_addToRange (r : List (String × Bucket)) (c t : Nat) (s : Student) :
    (addToRange r c t s).map (fun p => p.1) = r.map (fun p => p.1) := by
  unfold addToRange
  rw [List.map_map]
  refine List.map_congr_left fun p _ => ?_
  simp only [Function.comp_apply]
  split <;> rfl

/-- A key that is not present is not affected. -/
theorem addToRange_of_not_mem (r : List (String × Bucket)) (c t : Nat) (s : Student)
    (h : getRangeKey c t ∉ r.map (fun p => p.1)) : addToRange r c t s = r := by
  induction r with
  | nil => rfl
  | cons p r ih =>
      rw [List.map_cons] at h
      rw [addToRange_cons, if_neg (fun hp => h (by rw [hp]; exact List.mem_cons_self _ _)),
        ih (fun hm => h (List.mem_cons_of_mem _ hm))]

/-- A single `addToRange` adds `1` to the total of the bucket counts,
provided the chosen key occurs among the (distinct) keys. -/
theorem sumCounts_addToRange (r : List (String × Bucket)) (c t : Nat) (s : Student)
    (hmem : getRangeKey c t ∈ r.map (fun p => p.1))
    (hnd : (r.map (fun p => p.1)).Nodup) :
    sumCounts (addToRange r c t s) = sumCounts r + 1 := by
  induction r with
  | nil => simp at hmem
  | cons p r ih =>
      rw [List.map_cons] at hmem hnd
      rw [addToRange_cons]
      by_cases hp : p.1 = getRangeKey c t
      · have hnotin : getRangeKey c t ∉ r.map (fun p => p.1) := by
          rw [← hp]
          exact (List.nodup_cons.mp hnd).1
        rw [if_pos hp, addToRange_of_not_mem r c t s hnotin]
        unfold sumCounts
        simp only [List.map_cons, List.sum_cons]
        omega
      · have hmem2 : getRangeKey c t ∈ r.map (fun p => p.1) := by
          rcases List.mem_cons.mp hmem with h | h
          · exact absurd h.symm hp
          · exact h
        have hnd2 := (List.nodup_cons.mp hnd).2
        rw [if_neg hp]
        unfold sumCounts
        simp only [List.map_cons, List.sum_cons]
        have := ih hmem2 hnd2
        unfold sumCounts at this
        omega

/-- How `addToRange` changes each bucket's student list: the chosen
bucket (when present) gets the student appended, all other buckets are
unchanged. -/
theorem sfind_addToRange (r : List (String × Bucket)) (c t : Nat) (s : Student)
    (key : String) :
    sfind (addToRange r c t s) key =
      if getRangeKey c t = key ∧ key ∈ r.map (fun p => p.1) then
        sfind r key ++ [s]
      else sfind r key := by
  induction r with
  | nil => simp [addToRange_nil, sfind]
  | cons p r ih =>
      rw [addToRange_cons]
      have hmem_iff : ¬ p.1 = key →
          ((key ∈ (p :: r).map (fun q => q.1)) ↔ key ∈ r.map (fun q => q.1)) := by
        intro hp
        rw [List.map_cons]
        constructor
        · intro h
          rcases List.mem_cons.mp h with h | h
          · exact absurd h.symm hp
          · exact h
        · exact fun h => List.mem_cons_of_mem _ h
      by_cases hpk : p.1 = getRangeKey c t
      · rw [if_pos hpk]
        by_cases hp : p.1 = key
        · rw [if_pos ⟨hpk.symm.trans hp,
            by rw [List.map_cons, ← hp]; exact List.mem_cons_self _ _⟩]
          show (if p.1 = key then p.2.students ++ [s] else sfind (addToRange r c t s) key)
              = (if p.1 = key then p.2.students else sfind r key) ++ [s]
          rw [if_pos hp, if_pos hp]
        · have hk : ¬ getRangeKey c t = key := fun h => hp (hpk.trans h)
          rw [if_neg (fun hc => hk hc.1)]
          show (if p.1 = key then p.2.students ++ [s] else sfind (addToRange r c t s) key)
              = if p.1 = key then p.2.students else sfind r key
          rw [if_neg hp, if_neg hp, ih, if_neg (fun hc => hk hc.1)]
      · rw [if_neg hpk]
        by_cases hp : p.1 = key
        · have hk : ¬ getRangeKey c t = key := fun h => hpk (hp.trans h.symm)
          rw [if_neg (fun hc => hk hc.1)]
          show (if p.1 = key then p.2.students else sfind (addToRange r c t s) key)
              = if p.1 = key then p.2.students else sfind r key
          rw [if_pos hp, if_pos hp]
        · show (if p.1 = key then p.2.students else sfind (addToRange r c t s) key)
              = if getRangeKey c t = key ∧ key ∈ (p :: r).map (fun q => q.1) then
                  sfind (p :: r) key ++ [s]
                else sfind (p :: r) key
          rw [if_neg hp, ih]
          by_cases hm : getRangeKey c t = key ∧ key ∈ r.map (fun q => q.1)
          · rw [if_pos hm, if_pos ⟨hm.1, (hmem_iff hp).mpr hm.2⟩]
            show sfind r key ++ [s] = (if p.1 = key then p.2.students else sfind r key) ++ [s]
            rw [if_neg hp]
          · rw [if_neg hm, if_neg (fun hc => hm ⟨hc.1, (hmem_iff hp).mp hc.2⟩)]
            show sfind r key = if p.1 = key then p.2.students else sfind r key
            rw [if_neg hp]

/-- Buckets of an all-empty ranges object are empty. -/
theorem sfind_of_all_empty (r : List (String × Bucket))
    (h : ∀ p ∈ r, p.2.students = []) (key : String) : sfind r key = [] := by
  induction r with
  | nil => rfl
  | cons p r ih =>
      by_cases hp : p.1 = key
      · simpa [sfind, hp] using h p (List.mem_cons_self p r)
      · simp only [sfind, if_neg hp]
        exact ih fun q hq => h q (List.mem_cons_of_mem p hq)

theorem sfind_getEmptyRanges (key : String) : sfind getEmptyRanges key = [] :=
  sfind_of_all_empty getEmptyRanges (by decide) key

theorem keys_getEmptyRanges : getEmptyRanges.map (fun p => p.1) = sixKeys := rfl

theorem sumCounts_getEmptyRanges : sumCounts getEmptyRanges = 0 := rfl

theorem foldRanges_nil (total : Nat) (r : List (String × Bucket)) :
    foldRanges total [] r = r := rfl

theorem foldRanges_cons (total : Nat) (e : UserCompletionEntry)
    (data : List UserCompletionEntry) (r : List (String × Bucket)) :
    foldRanges total (e :: data) r
      = foldRanges total data (addToRange r e.completedCount total (mkStudentData total e)) := rfl

theorem keys_foldRanges (total : Nat) :
    ∀ (data : List UserCompletionEntry) (r : List (String × Bucket)),
      (foldRanges total data r).map (fun p => p.1) = r.map (fun p => p.1) := by
  intro data
  induction data with
  | nil => intro r; rfl
  | cons e data ih =>
      intro r
      rw [foldRanges_cons, ih, keys_addToRange]

theorem sumCounts_foldRanges (total : Nat) :
    ∀ (data : List UserCompletionEntry) (r : List (String × Bucket)),
      r.map (fun p => p.1) = sixKeys →
      sumCounts (foldRanges total data r) = sumCounts r + data.length := by
  intro data
  induction data with
  | nil => intro r _; simp [foldRanges_nil]
  | cons e data ih =>
      intro r hr
      rw [foldRanges_cons, ih _ (by rw [keys_addToRange]; exact hr),
        sumCounts_addToRange r _ _ _
          (by rw [hr]; exact getRangeKey_mem_sixKeys _ _)
          (by rw [hr]; decide)]
      simp only [List.length_cons]
      omega

theorem sfind_foldRanges (total : Nat) :
    ∀ (data : List UserCompletionEntry) (r : List (String × Bucket)),
      r.map (fun p => p.1) = sixKeys → ∀ key,
      sfind (foldRanges total data r) key
        = sfind r key ++ (data.map (mkStudentData total)).filter
            (fun s => getRangeKey s.completedActivities total == key) := by
  intro data
  induction data with
  | nil => intro r _ key; simp [foldRanges_nil]
  | cons e data ih =>
      intro r hr key
      rw [foldRanges_cons, ih _ (by rw [keys_addToRange]; exact hr) key, sfind_addToRange]
      by_cases hk : getRangeKey e.completedCount total = key
      · rw [if_pos ⟨hk, by rw [hr]; exact hk ▸ getRangeKey_mem_sixKeys e.completedCount total⟩]
        rw [List.map_cons, List.filter_cons]
        have hb : (getRangeKey (mkStudentData total e).completedActivities total == key)
            = true := by
          simp [mkStudentData, hk]
        rw [hb]
        simp [List.append_assoc]
      · rw [if_neg (fun hc => hk hc.1), List.map_cons, List.filter_cons]
        have hb : (getRangeKey (mkStudentData total e).completedActivities total == key)
            = false := by
          simp [mkStudentData, hk]
        rw [hb]
        simp

theorem keys_sortRanges (r : List (String × Bucket)) :
    (sortRanges r).map (fun p => p.1) = r.map (fun p => p.1) := by
  unfold sortRanges
  rw [List.map_map]
  rfl

theorem sumCounts_sortRanges (r : List (String × Bucket)) :
    sumCounts (sortRanges r) = sumCounts r := by
  unfold sumCounts sortRanges
  rw [List.map_map]
  rfl

theorem sfind_sortRanges (r : List (String × Bucket)) (key : String) :
    sfind (sortRanges r) key = List.insertionSort sGE (sfind r key) := by
  induction r with
  | nil => rfl
  | cons p r ih =>
      show (if p.1 = key then List.insertionSort sGE p.2.students else sfind (sortRanges r) key)
          = List.insertionSort sGE (if p.1 = key then p.2.students else sfind r key)
      by_cases hp : p.1 = key
      · rw [if_pos hp, if_pos hp]
      · rw [if_neg hp, if_neg hp, ih]

/-! ## Stability of the per-bucket sort -/

theorem filter_orderedInsert_eq (x : Student) (k : Nat)
    (hx : x.completedActivities = k) :
    ∀ l : List Student,
      (List.orderedInsert sGE x l).filter (fun s => s.completedActivities == k)
        = x :: l.filter (fun s => s.completedActivities == k) := by
  intro l
  induction l with
  | nil => simp [List.orderedInsert, hx]
  | cons b l ih =>
      have hoi : List.orderedInsert sGE x (b :: l)
          = if sGE x b then x :: b :: l else b :: List.orderedInsert sGE x l := rfl
      rw [hoi]
      by_cases h : sGE x b
      · rw [if_pos h, List.filter_cons]
        have hxt : (x.completedActivities == k) = true := by simp [hx]
        rw [hxt]
        simp
      · rw [if_neg h, List.filter_cons]
        have hb : (b.completedActivities == k) = false := by
          have hlt : x.completedActivities < b.completedActivities := by
            unfold sGE at h
            omega
          simp only [beq_eq_false_iff_ne, ne_eq]
          omega
        rw [hb]
        simp only [Bool.false_eq_true, if_false]
        rw [ih, List.filter_cons, hb]
        simp

theorem filter_orderedInsert_ne (x : Student) (k : Nat)
    (hx : ¬ x.completedActivities = k) :
    ∀ l : List Student,
      (List.orderedInsert sGE x l).filter (fun s => s.completedActivities == k)
        = l.filter (fun s => s.completedActivities == k) := by
  intro l
  have hxf : (x.completedActivities == k) = false := by
    simp only [beq_eq_false_iff_ne, ne_eq]
    exact hx
  induction l with
  | nil => simp [List.orderedInsert, hxf]
  | cons b l ih =>
      have hoi : List.orderedInsert sGE x (b :: l)
          = if sGE x b then x :: b :: l else b :: List.orderedInsert sGE x l := rfl
      rw [hoi]
      by_cases h : sGE x b
      · rw [if_pos h, List.filter_cons, hxf]
        simp
      · rw [if_neg h, List.filter_cons, List.filter_cons]
        simp only [ih]

/-- Stability: sorting a bucket never changes the relative order of
students with the same completion count. -/
theorem filter_insertionSort (k : Nat) :
    ∀ l : List Student,
      (List.insertionSort sGE l).filter (fun s => s.completedActivities == k)
        = l.filter (fun s => s.completedActivities == k) := by
  intro l
  induction l with
  | nil => rfl
  | cons x l ih =>
      show (List.orderedInsert sGE x (List.insertionSort sGE l)).filter
            (fun s => s.completedActivities == k)
          = (x :: l).filter (fun s => s.completedActivities == k)
      by_cases hx : x.completedActivities = k
      · rw [filter_orderedInsert_eq x k hx, ih, List.filter_cons]
        have hxt : (x.completedActivities == k) = true := by simp [hx]
        rw [hxt]
        simp
      · rw [filter_orderedInsert_ne x k hx, ih, List.filter_cons]
        have hxf : (x.completedActivities == k) = false := by
          simp only [beq_eq_false_iff_ne, ne_eq]
          exact hx
        rw [hxf]
        simp

/-! ## Lemmas about settlement orders -/

theorem perm_flatten_of_forall₂ {xs ys : List (List User)}
    (h : List.Forall₂ (fun a b => a.Perm b) xs ys) : xs.flatten.Perm ys.flatten := by
  induction h with
  | nil => exact List.Perm.refl _
  | cons h1 _ ih =>
      rw [List.flatten_cons, List.flatten_cons]
      exact h1.append ih

theorem BatchwisePerm.perm {b : Nat} (hb : 0 < b) {users order : List User}
    (h : BatchwisePerm b users order) : order.Perm users := by
  obtain ⟨obs, rfl, hf⟩ := h
  have hp := perm_flatten_of_forall₂ hf
  rwa [batches_flatten b hb] at hp

/-- The main expression of a bucket's student list for a non-empty
enrolment: the collected entries of that bucket, in collection order,
sorted by the stable descending sort. -/
theorem bucketStudents_eq (users : List User) (fetch : User → Option (List Status))
    (order : List User) (he : users.isEmpty = false) (key : String) :
    bucketStudents (getSingleCourseCompletionBreakdown users fetch order) key
      = List.insertionSort sGE
          (((order.map (fetchEntry fetch)).map
              (mkStudentData (totalActivities (order.map (fetchEntry fetch))))).filter
            (fun s => getRangeKey s.completedActivities
                (totalActivities (order.map (fetchEntry fetch))) == key)) := by
  unfold bucketStudents getSingleCourseCompletionBreakdown
  rw [he]
  simp only [Bool.false_eq_true, if_false]
  rw [sfind_sortRanges, sfind_foldRanges _ _ _ keys_getEmptyRanges key, sfind_getEmptyRanges,
    List.nil_append]

/-! ## Claims C2, C6, C7 -/

/-- C2: every bucketed breakdown distributes exactly the enrolled users
over the six buckets: the bucket counts sum to `totalEnrolled`, which is
the length of the enrolled-user list, whatever the per-student completion
results are (fetch failures included — they produce the zero-progress
fallback entry and are bucketed like everyone else). -/
theorem C2_bucket_counts_sum (users : List User) (fetch : User → Option (List Status))
    (order : List User) (h : BatchwisePerm 20 users order) :
    sumCounts (getSingleCourseCompletionBreakdown users fetch order).completionRanges
      = users.length ∧
    (getSingleCourseCompletionBreakdown users fetch order).totalEnrolled = users.length := by
  have hlen : order.length = users.length :=
    (BatchwisePerm.perm (by norm_num) h).length_eq
  by_cases he : users.isEmpty = true
  · have hu : users = [] := by
      cases users with
      | nil => rfl
      | cons a l => simp at he
    subst hu
    exact ⟨rfl, rfl⟩
  · have he2 : users.isEmpty = false := by simpa using he
    have hcr : (getSingleCourseCompletionBreakdown users fetch order).completionRanges
        = sortRanges (foldRanges (totalActivities (order.map (fetchEntry fetch)))
            (order.map (fetchEntry fetch)) getEmptyRanges) := by
      simp [getSingleCourseCompletionBreakdown, he2]
    have hte : (getSingleCourseCompletionBreakdown users fetch order).totalEnrolled
        = users.length := by
      simp [getSingleCourseCompletionBreakdown, he2]
    refine ⟨?_, hte⟩
    rw [hcr, sumCounts_sortRanges,
      sumCounts_foldRanges _ _ _ keys_getEmptyRanges, sumCounts_getEmptyRanges,
      List.length_map, hlen]
    omega

/-- Concrete enrolled users for the witnesses and the C7 counterexample. -/
def wAlice : User := ⟨1, "Alice", "alice@example.com", "alice"⟩

def wBob : User := ⟨2, "Bob", "bob@example.com", "bob"⟩

/-- A fetch with two visible activities per student and one qualifying
completion each (state 1 for Alice, state 2 for Bob): both land at 50%,
bucket `"high"`, with equal `completedActivities = 1`. -/
def cexFetch : User → Option (List Status) := fun u =>
  if u.id = 1 then some [⟨11, 1, 1⟩, ⟨12, 2, 0⟩] else some [⟨11, 1, 2⟩, ⟨12, 2, 0⟩]

/-- The settlement order that lists both enrolled users as one batch, in
dispatch order. -/
theorem batchwisePerm_pair_id : BatchwisePerm 20 [wAlice, wBob] [wAlice, wBob] :=
  ⟨[[wAlice, wBob]],
   rfl,
   by
     rw [show batches 20 [wAlice, wBob] = [[wAlice, wBob]] from rfl]
     exact List.Forall₂.cons (List.Perm.refl _) List.Forall₂.nil⟩

/-- C2 witness: two enrolled users, one batch, counts sum to 2. -/
theorem C2_bucket_counts_sum_witness :
    sumCounts (getSingleCourseCompletionBreakdown [wAlice, wBob] cexFetch
      [wAlice, wBob]).completionRanges = 2 ∧
    (getSingleCourseCompletionBreakdown [wAlice, wBob] cexFetch
      [wAlice, wBob]).totalEnrolled = 2 :=
  C2_bucket_counts_sum [wAlice, wBob] cexFetch [wAlice, wBob] batchwisePerm_pair_id

/-- C6: the output `completionRanges` object always carries exactly the
six keys `0, low, mid, high, veryhigh, full` (in creation order), each
bound to a bucket — also for the empty enrolment and for per-student
failures; no key is ever omitted. -/
theorem C6_all_six_keys_present (users : List User) (fetch : User → Option (List Status))
    (order : List User) :
    (getSingleCourseCompletionBreakdown users fetch order).completionRanges.map
        (fun p => p.1) = sixKeys ∧
    ∀ key ∈ sixKeys,
      ((getSingleCourseCompletionBreakdown users fetch order).completionRanges.find?
        (fun p => p.1 == key)).isSome = true := by
  have hkeys : (getSingleCourseCompletionBreakdown users fetch order).completionRanges.map
      (fun p => p.1) = sixKeys := by
    by_cases he : users.isEmpty = true
    · simp [getSingleCourseCompletionBreakdown, he]
      rfl
    · have he2 : users.isEmpty = false := by simpa using he
      have hcr : (getSingleCourseCompletionBreakdown users fetch order).completionRanges
          = sortRanges (foldRanges (totalActivities (order.map (fetchEntry fetch)))
              (order.map (fetchEntry fetch)) getEmptyRanges) := by
        simp [getSingleCourseCompletionBreakdown, he2]
      rw [hcr, keys_sortRanges, keys_foldRanges, keys_getEmptyRanges]
  refine ⟨hkeys, fun key hk => ?_⟩
  rw [List.find?_isSome]
  rw [← hkeys] at hk
  rcases List.mem_map.mp hk with ⟨p, hp, hpe⟩
  exact ⟨p, hp, by simp [hpe]⟩

/-- C7 counterexample: both enrolled users tie at 1 completed activity of
2 and land in bucket `"high"`; the settlement order `[Bob, Alice]` is a
legitimate per-batch permutation of the enrolled list `[Alice, Bob]`
(both users are in the single batch, and within a batch `Promise.all`
settles in arbitrary order), yet the bucket lists Bob (id 2) before
Alice (id 1) — not the enrolled-input order, contradicting the claim's
"stable ties in input order". -/
theorem C7_counterexample :
    BatchwisePerm 20 [wAlice, wBob] [wBob, wAlice] ∧
    (bucketStudents (getSingleCourseCompletionBreakdown [wAlice, wBob] cexFetch
        [wBob, wAlice]) "high").map (fun s => s.id) = [2, 1] ∧
    (bucketStudents (getSingleCourseCompletionBreakdown [wAlice, wBob] cexFetch
        [wBob, wAlice]) "high").map (fun s => s.completedActivities) = [1, 1] ∧
    ([2, 1] : List Nat) ≠ [1, 2] := by
  refine ⟨⟨[[wBob, wAlice]], rfl, ?_⟩, ?_, ?_, by decide⟩
  · rw [show batches 20 [wAlice, wBob] = [[wAlice, wBob]] from rfl]
    exact List.Forall₂.cons (List.Perm.swap wAlice wBob []) List.Forall₂.nil
  · rw [bucketStudents_eq [wAlice, wBob] cexFetch [wBob, wAlice] rfl "high"]
    simp only [rangeKeyNat_eq]
    decide
  · rw [bucketStudents_eq [wAlice, wBob] cexFetch [wBob, wAlice] rfl "high"]
    simp only [rangeKeyNat_eq]
    decide

/-- C7 amended: in every breakdown, each bucket's student list is sorted
by non-increasing `completedActivities`, and students with equal
`completedActivities` appear in the order in which their completion
results were collected (the settlement order `order`, a per-batch
permutation of the enrolled list) — which is the enrolled-input order
exactly when each batch settles in dispatch order.  The second conjunct
is the standard stability statement: for every count value `k`, the
`k`-tied students of a bucket are the `k`-tied students of that bucket
taken from the collected list in collection order. -/
theorem C7_amended_bucket_sorted_stable (users : List User)
    (fetch : User → Option (List Status)) (order : List User)
    (h : BatchwisePerm 20 users order) (key : String) (k : Nat) :
    List.Sorted sGE (bucketStudents (getSingleCourseCompletionBreakdown users fetch order) key) ∧
    (bucketStudents (getSingleCourseCompletionBreakdown users fetch order) key).filter
        (fun s => s.completedActivities == k)
      = ((order.map (fetchEntry fetch)).map
            (mkStudentData (totalActivities (order.map (fetchEntry fetch))))).filter
          (fun s => (s.completedActivities == k)
            && (getRangeKey s.completedActivities
                  (totalActivities (order.map (fetchEntry fetch))) == key)) := by
  by_cases he : users.isEmpty = true
  · have hu : users = [] := by
      cases users with
      | nil => rfl
      | cons a l => simp at he
    subst hu
    have ho : order = [] := by
      have hp := BatchwisePerm.perm (show (0 : Nat) < 20 by norm_num) h
      exact hp.eq_nil
    subst ho
    constructor
    · simp [bucketStudents, getSingleCourseCompletionBreakdown, sfind_getEmptyRanges]
    · simp [bucketStudents, getSingleCourseCompletionBreakdown, sfind_getEmptyRanges]
  · have he2 : users.isEmpty = false := by simpa using he
    constructor
    · rw [bucketStudents_eq users fetch order he2 key]
      exact List.sorted_insertionSort sGE _
    · rw [bucketStudents_eq users fetch order he2 key, filter_insertionSort,
        List.filter_filter]

/-- C7 witness: applying the amended claim to the two-user course with
the dispatch-order settlement. -/
theorem C7_amended_witness :
    List.Sorted sGE (bucketStudents (getSingleCourseCompletionBreakdown [wAlice, wBob]
      cexFetch [wAlice, wBob]) "high") ∧
    (bucketStudents (getSingleCourseCompletionBreakdown [wAlice, wBob] cexFetch
        [wAlice, wBob]) "high").filter (fun s => s.completedActivities == 1)
      = (([wAlice, wBob].map (fetchEntry cexFetch)).map
            (mkStudentData (totalActivities ([wAlice, wBob].map (fetchEntry cexFetch))))).filter
          (fun s => (s.completedActivities == 1)
            && (getRangeKey s.completedActivities
                  (totalActivities ([wAlice, wBob].map (fetchEntry cexFetch))) == "high")) :=
  C7_amended_bucket_sorted_stable [wAlice, wBob] cexFetch [wAlice, wBob]
    batchwisePerm_pair_id "high" 1

/-! ## Claims C8, C9 — class-wise video/pdf attribution -/

theorem mem_keys_ensureClass (cd : ClassData) (label : String) :
    label ∈ (ensureClass cd label).map (fun p => p.1) := by
  unfold ensureClass
  by_cases h : label ∈ cd.map (fun p => p.1)
  · rw [if_pos h]
    exact h
  · rw [if_neg h, List.map_append, List.mem_append]
    right
    simp

theorem videoIds_addVideo (cd : ClassData) (label : String) (sid : Nat)
    (h : label ∈ cd.map (fun p => p.1)) :
    videoIds (addVideo cd label sid) label = insert sid (videoIds cd label) := by
  induction cd with
  | nil => simp at h
  | cons p cd ih =>
      show videoIds ((if p.1 = label then (p.1, (insert sid p.2.1, p.2.2)) else p)
          :: addVideo cd label sid) label = insert sid (videoIds (p :: cd) label)
      by_cases hp : p.1 = label
      · rw [if_pos hp]
        show (if p.1 = label then insert sid p.2.1 else videoIds (addVideo cd label sid) label)
            = insert sid (if p.1 = label then p.2.1 else videoIds cd label)
        rw [if_pos hp, if_pos hp]
      · rw [if_neg hp]
        show (if p.1 = label then p.2.1 else videoIds (addVideo cd label sid) label)
            = insert sid (if p.1 = label then p.2.1 else videoIds cd label)
        rw [if_neg hp, if_neg hp]
        refine ih ?_
        rw [List.map_cons] at h
        rcases List.mem_cons.mp h with h2 | h2
        · exact absurd h2.symm hp
        · exact h2

theorem pdfIds_addPdf (cd : ClassData) (label : String) (sid : Nat)
    (h : label ∈ cd.map (fun p => p.1)) :
    pdfIds (addPdf cd label sid) label = insert sid (pdfIds cd label) := by
  induction cd with
  | nil => simp at h
  | cons p cd ih =>
      show pdfIds ((if p.1 = label then (p.1, (p.2.1, insert sid p.2.2)) else p)
          :: addPdf cd label sid) label = insert sid (pdfIds (p :: cd) label)
      by_cases hp : p.1 = label
      · rw [if_pos hp]
        show (if p.1 = label then insert sid p.2.2 else pdfIds (addPdf cd label sid) label)
            = insert sid (if p.1 = label then p.2.2 else pdfIds cd label)
        rw [if_pos hp, if_pos hp]
      · rw [if_neg hp]
        show (if p.1 = label then p.2.2 else pdfIds (addPdf cd label sid) label)
            = insert sid (if p.1 = label then p.2.2 else pdfIds cd label)
        rw [if_neg hp, if_neg hp]
        refine ih ?_
        rw [List.map_cons] at h
        rcases List.mem_cons.mp h with h2 | h2
        · exact absurd h2.symm hp
        · exact h2

/-- C8 counterexample data: a classified video activity whose underlying
instance identifier is `0`. -/
def cexModZ : ModInfo := ⟨"Class A", "video", "Video 1", 5, 0, "interactivevideo"⟩

def cexMapZ : List (Nat × ModInfo) := [(5, cexModZ)]

/-- A qualifying completion event whose cmid (7) is absent from the map
and whose instance (0) equals the instance of the classified activity. -/
def cexStZ : Status := ⟨7, 0, 1⟩

/-- C8 counterexample: the event satisfies everything the claim asks for —
qualifying complete state, cmid absent from the classified map, instance
equal to the instance of a classified video activity — yet the source's
truthiness guard `if (!modInfo && status.instance)` skips the fallback
for instance `0`, the event is discarded, and the student is *not*
attributed to the activity's class video set. -/
theorem C8_counterexample :
    (cexStZ.state = 1 ∨ cexStZ.state = 2) ∧
    findCmid cexMapZ cexStZ.cmid = none ∧
    (∃ m ∈ jsValues cexMapZ, m.instanceId = cexStZ.instanceId ∧ m.type = "video"
      ∧ m.classLabel = "Class A") ∧
    processStatus cexMapZ [] 42 cexStZ = [] ∧
    ¬ 42 ∈ videoIds (processStatus cexMapZ [] 42 cexStZ) "Class A" := by
  refine ⟨Or.inl rfl, by decide, ⟨cexModZ, by decide, rfl, rfl, rfl⟩, by decide, by decide⟩

/-- C8 amended: a qualifying completion event whose cmid is absent from
the classified map and whose instance identifier is *truthy* (nonzero)
and matched by the fallback search is attributed to the matched
activity's class: the student id lands in that class's video set when the
activity is a video, and in its pdf set when it is a pdf.  An event whose
cmid misses the map and whose fallback yields nothing (including the
falsy-instance case) is discarded with no error: the class data is
returned unchanged. -/
theorem C8_amended_fallback_attribution (moduleMap : List (Nat × ModInfo))
    (cd : ClassData) (sid : Nat) (st : Status) :
    ((st.state = 1 ∨ st.state = 2) →
      findCmid moduleMap st.cmid = none →
      st.instanceId ≠ 0 →
      ∀ m, ((jsValues moduleMap).find? fun x => x.instanceId == st.instanceId) = some m →
        (m.type = "video" →
          sid ∈ videoIds (processStatus moduleMap cd sid st) m.classLabel) ∧
        (m.type = "pdf" →
          sid ∈ pdfIds (processStatus moduleMap cd sid st) m.classLabel)) ∧
    (findCmid moduleMap st.cmid = none →
      (st.instanceId = 0 ∨
        ((jsValues moduleMap).find? fun x => x.instanceId == st.instanceId) = none) →
      processStatus moduleMap cd sid st = cd) := by
  constructor
  · intro hstate hcmid hinst m hfind
    have hguard : ¬ (st.state ≠ 1 ∧ st.state ≠ 2) := by
      rcases hstate with h | h <;> simp [h]
    have hps : processStatus moduleMap cd sid st
        = (if m.type == "video" then addVideo (ensureClass cd m.classLabel) m.classLabel sid
           else if m.type == "pdf" then addPdf (ensureClass cd m.classLabel) m.classLabel sid
           else ensureClass cd m.classLabel) := by
      unfold processStatus
      rw [if_neg hguard]
      simp only [hcmid, if_pos hinst, hfind]
    constructor
    · intro htype
      rw [hps, if_pos (by simp [htype])]
      rw [videoIds_addVideo _ _ _ (mem_keys_ensureClass cd m.classLabel)]
      exact Finset.mem_insert_self sid _
    · intro htype
      have hnv : (m.type == "video") = false := by simp [htype]
      rw [hps, hnv]
      simp only [Bool.false_eq_true, if_false]
      rw [if_pos (by simp [htype])]
      rw [pdfIds_addPdf _ _ _ (mem_keys_ensureClass cd m.classLabel)]
      exact Finset.mem_insert_self sid _
  · intro hcmid hnone
    by_cases hguard : st.state ≠ 1 ∧ st.state ≠ 2
    · unfold processStatus
      rw [if_pos hguard]
    · unfold processStatus
      rw [if_neg hguard]
      rcases hnone with h0 | hf
      · simp only [hcmid, h0]
        simp
      · by_cases hi : st.instanceId ≠ 0
        · simp only [hcmid, if_pos hi, hf]
        · simp only [hcmid, if_neg hi]

/-- C8 witness data: the same classified video activity but with a
truthy instance identifier 9, and an event with unknown cmid 7 and
instance 9. -/
def cexModA : ModInfo := ⟨"Class A", "video", "Video 1", 5, 9, "interactivevideo"⟩

def cexMapA : List (Nat × ModInfo) := [(5, cexModA)]

def cexStA : Status := ⟨7, 9, 1⟩

/-- C8 witness: with a truthy instance the fallback attributes the event —
student 42 lands in the video set of "Class A" — and, at the same inputs
with an unmatched instance 8, the event is discarded unchanged. -/
theorem C8_amended_fallback_attribution_witness :
    42 ∈ videoIds (processStatus cexMapA [] 42 cexStA) "Class A" ∧
    processStatus cexMapA [] 42 ⟨7, 8, 1⟩ = [] :=
  ⟨by
    have h := (C8_amended_fallback_attribution cexMapA [] 42 cexStA).1
      (Or.inl rfl) (by decide) (by decide) cexModA (by decide)
    exact h.1 rfl,
   (C8_amended_fallback_attribution cexMapA [] 42 ⟨7, 8, 1⟩).2 (by decide) (Or.inr (by decide))⟩

/-- C9: in every class summary the deduplicated learner counts satisfy
`both ≤ min(video, pdf) ≤ either ≤ video + pdf`. -/
theorem C9_learner_count_bounds (cd : ClassData) (label : String) (te : Nat) :
    (classSummaryFor cd label te).bothCompleted
        ≤ min (classSummaryFor cd label te).videoCompleted
            (classSummaryFor cd label te).pdfCompleted ∧
    min (classSummaryFor cd label te).videoCompleted
        (classSummaryFor cd label te).pdfCompleted
      ≤ (classSummaryFor cd label te).eitherCompleted ∧
    (classSummaryFor cd label te).eitherCompleted
      ≤ (classSummaryFor cd label te).videoCompleted
          + (classSummaryFor cd label te).pdfCompleted := by
  have hv : (classSummaryFor cd label te).videoCompleted = (videoIds cd label).card := rfl
  have hp : (classSummaryFor cd label te).pdfCompleted = (pdfIds cd label).card := rfl
  have hb : (classSummaryFor cd label te).bothCompleted
      = ((videoIds cd label).filter fun id => id ∈ pdfIds cd label).card := rfl
  have he : (classSummaryFor cd label te).eitherCompleted
      = (videoIds cd label ∪ pdfIds cd label).card := rfl
  rw [hv, hp, hb, he]
  refine ⟨le_min ?_ ?_, ?_, Finset.card_union_le _ _⟩
  · exact Finset.card_le_card (Finset.filter_subset _ _)
  · rw [Finset.filter_mem_eq_inter]
    exact Finset.card_le_card Finset.inter_subset_right
  · exact le_trans (min_le_left _ _)
      (Finset.card_le_card Finset.subset_union_left)

/-! ## Claims C4, C5, C10 — date range resolver and consistency counter -/

/-- C4 counterexample: with start `2026-01-12` *after* end `2026-01-10`,
the resolver does not fail — it returns `.ok` with the lower bound above
the upper bound, contradicting the claim's "fails with InvalidRange ...
when the start date is after the end date". -/
theorem C4_counterexample :
    getDateRangeCustom (.parsed 2026 1 12) (.parsed 2026 1 10)
      = .ok (1768176000, 1768089599) ∧
    (1768089599 : Int) < 1768176000 := by
  exact ⟨rfl, by decide⟩

/-- C4 amended: when both strings parse, the resolver returns
`[00:00:00Z of the start date, 23:59:59Z of the end date]` in epoch
seconds, *regardless of their order*; it fails exactly when a string is
missing or unparsable.  Concretely, start `2026-01-10` and end
`2026-01-12` give `from = 1768003200 (2026-01-10T00:00:00Z)` and
`to = 1768262399 (2026-01-12T23:59:59Z)`. -/
theorem C4_amended_custom_range :
    (∀ y1 m1 d1 y2 m2 d2 : Int,
      getDateRangeCustom (.parsed y1 m1 d1) (.parsed y2 m2 d2)
        = .ok (86400 * daysFromCivil y1 m1 d1, 86400 * daysFromCivil y2 m2 d2 + 86399)) ∧
    (∀ f t : DateInput,
      (∃ e, getDateRangeCustom f t = .error e) ↔
        (f = .missing ∨ t = .missing ∨ f = .unparsable ∨ t = .unparsable)) ∧
    getDateRangeCustom (.parsed 2026 1 10) (.parsed 2026 1 12)
      = .ok (1768003200, 1768262399) := by
  refine ⟨fun y1 m1 d1 y2 m2 d2 => ?_, fun f t => ?_, rfl⟩
  · unfold getDateRangeCustom
    rw [if_neg (by rintro (h | h) <;> exact DateInput.noConfusion h)]
  · cases f <;> cases t <;> simp [getDateRangeCustom]

/-- The rational-ceiling form of `daysInRange` as an integer division. -/
theorem daysInRange_eq_neg_ediv (f t : Int) :
    daysInRange f t = -((f - t) / 86400) := by
  unfold daysInRange
  have h : ((t : ℚ) - f) / (24 * 60 * 60) = -(((f - t : ℤ) : ℚ) / ((86400 : ℕ) : ℚ)) := by
    push_cast
    ring
  rw [h, Int.ceil_neg, Rat.floor_intCast_div_natCast]
  norm_num

/-- C5 counterexample: a range whose bounds coincide (e.g. `today`
resolved exactly at midnight UTC) gives `totalDays = 0`, not the
claimed minimum of 1 — the source applies no lower clamp. -/
theorem C5_counterexample :
    (getConsistentAccessData 1000 1000 []).totalDays = 0 ∧
    ¬ 1 ≤ (getConsistentAccessData 1000 1000 []).totalDays := by
  have h : (getConsistentAccessData 1000 1000 []).totalDays = daysInRange 1000 1000 := rfl
  refine ⟨?_, ?_⟩ <;> rw [h, daysInRange_eq_neg_ediv] <;> decide

/-- C5 amended: for `from ≤ to` the day count used by the consistency
counter equals `⌈(to - from) / 86400⌉ = (to - from + 86399) / 86400`
exactly, with no minimum applied: it is `0` precisely when `to = from`,
and at least 1 exactly when `to > from`. -/
theorem C5_amended_days_in_range (f t : Int) (roster : List RosterUser) (h : f ≤ t) :
    (getConsistentAccessData f t roster).totalDays = (t - f + 86399) / 86400 ∧
    ((getConsistentAccessData f t roster).totalDays = 0 ↔ t = f) ∧
    (f < t → 1 ≤ (getConsistentAccessData f t roster).totalDays) := by
  have htd : (getConsistentAccessData f t roster).totalDays = daysInRange f t := rfl
  have he : daysInRange f t = (t - f + 86399) / 86400 := by
    rw [daysInRange_eq_neg_ediv]
    omega
  refine ⟨by rw [htd, he], ?_, ?_⟩
  · rw [htd, he]
    omega
  · intro hlt
    rw [htd, he]
    omega

def wRoster : List RosterUser := [⟨1, 10, 2⟩, ⟨2, 20, 5⟩]

/-- C5 witness: a one-day range (86400 seconds plus nothing) has
`totalDays = (86400 + 86399) / 86400 = 1`. -/
theorem C5_amended_days_in_range_witness :
    (getConsistentAccessData 0 86400 wRoster).totalDays = (86400 - 0 + 86399) / 86400 ∧
    ((getConsistentAccessData 0 86400 wRoster).totalDays = 0 ↔ (86400 : Int) = 0) ∧
    ((0 : Int) < 86400 → 1 ≤ (getConsistentAccessData 0 86400 wRoster).totalDays) :=
  C5_amended_days_in_range 0 86400 wRoster (by decide)

/-- C10: the `users` array of a consistency report is sorted by
non-increasing `consistency`, each user's consistency being
`Math.round(uniqueDays / totalDays * 100)` (stated for ranges spanning a
positive number of days — with `totalDays = 0` the source's comparator
computes on `NaN` and the order is unspecified). -/
theorem C10_users_sorted_by_consistency (f t : Int) (roster : List RosterUser)
    (h : 0 < daysInRange f t) :
    List.Sorted cGE (getConsistentAccessData f t roster).users ∧
    ∀ u ∈ (getConsistentAccessData f t roster).users,
      u.consistency
        = jsRound ((u.uniqueDays : ℚ) /
            ((getConsistentAccessData f t roster).totalDays : ℚ) * 100) := by
  constructor
  · exact List.sorted_insertionSort cGE _
  · intro u hu
    have hmem := (List.perm_insertionSort cGE _).mem_iff.mp hu
    rcases List.mem_map.mp hmem with ⟨e, _, rfl⟩
    rfl

/-- C10 witness: a 3-day range with two active users (consistencies 67
and 100) yields a descending-sorted list. -/
theorem C10_users_sorted_by_consistency_witness :
    List.Sorted cGE (getConsistentAccessData 0 259200 wRoster).users :=
  (C10_users_sorted_by_consistency 0 259200 wRoster
    (by rw [daysInRange_eq_neg_ediv]; decide)).1

end MoodleBackend